import Mathlib

/-!
Shallow embedding of the `ab_sign` request-signing pipeline (RC4 stream
cipher, SM3 hash engine, modified base64 encoder, byte-protocol builder,
orchestrator) from `src/unnamed/part_006`, together with proofs about it.

Modelling conventions:
* A JavaScript string is modelled as a `List Nat` of its UTF-16 code units
  (`charCodeAt` values).  All strings manipulated by this pipeline are built
  from `String.fromCharCode` of values below 65536, for which `for..of`
  iteration, `charCodeAt(0)` and `.length` agree with this view.
* JavaScript 32-bit arithmetic (`&`, `|`, `^`, `<<`, `>>>`, `& 0xffffffff`)
  is modelled on `Nat` with explicit `% 4294967296`.  JS stores the results
  of bitwise ops as signed int32; the unsigned residue mod 2^32 has the same
  bit pattern, which is what all later arithmetic depends on.  The one place
  the sign is observable — `Number.prototype.toString(16)` in the hex output
  of `SM3.sum` — is modelled explicitly by `js32HexPad` below.
* `TextEncoder().encode` (UTF-8 conversion of a JS string) is modelled by
  `utf8Encode` on code-unit lists, including surrogate-pair handling.
-/

/-! ### RC4 stream cipher (`rc4Encrypt`, part_006 lines 9-33) -/

/-- One key-scheduling step of `rc4Encrypt`'s first loop: for index `i`,
`j = (j + s[i] + key.charCodeAt(i % key.length)) % 256` followed by the swap
`[s[i], s[j]] = [s[j], s[i]]`.  State is the pair `(s, j)`. -/
def ksaStep (key : List Nat) (p : List Nat × Nat) (i : Nat) : List Nat × Nat :=
  let s := p.1
  let j := (p.2 + s.getD i 0 + key.getD (i % key.length) 0) % 256
  ((s.set i (s.getD j 0)).set j (s.getD i 0), j)

/-- The table `s` after the 256-step key schedule, starting from the identity
table `Array.from({length: 256}, (_, i) => i)`. -/
def rc4Ksa (key : List Nat) : List Nat :=
  ((List.range 256).foldl (ksaStep key) (List.range 256, 0)).1

/-- One keystream step of `rc4Encrypt`'s second loop:
`i = (i+1) % 256; j = (j + s[i]) % 256;` then the swap of `s[i]` and `s[j]`.
Returns the new `(s, i, j)`. -/
def prgaStep (s : List Nat) (i j : Nat) : List Nat × Nat × Nat :=
  let i2 := (i + 1) % 256
  let j2 := (j + s.getD i2 0) % 256
  ((s.set i2 (s.getD j2 0)).set j2 (s.getD i2 0), i2, j2)

/-- The keystream byte emitted after one `prgaStep` from `(s, i, j)`:
`t = (s[i] + s[j]) % 256` on the post-swap table, then `s[t]`.  It depends
only on the cipher state, not on the plaintext character it is XORed with. -/
def prgaOut (s : List Nat) (i j : Nat) : Nat :=
  let p := prgaStep s i j
  p.1.getD ((p.1.getD p.2.1 0 + p.1.getD p.2.2 0) % 256) 0

/-- The keystream/encryption loop of `rc4Encrypt`: for each plaintext char,
advance the state with `prgaStep`, then output `s[(s[i]+s[j]) % 256] ^ c`. -/
def prga : List Nat → Nat → Nat → List Nat → List Nat
  | _, _, _, [] => []
  | s, i, j, c :: cs =>
    (prgaOut s i j ^^^ c) ::
      prga (prgaStep s i j).1 (prgaStep s i j).2.1 (prgaStep s i j).2.2 cs

/-- `rc4Encrypt(plaintext, key)` from part_006: key schedule, then encrypt. -/
def rc4Encrypt (plaintext key : List Nat) : List Nat :=
  prga (rc4Ksa key) 0 0 plaintext

/-- Iterated keystream stepping: the cipher state after `n` per-byte
keystream steps (the state component of the trace that `prga` walks). -/
def prgaIter (s : List Nat) (i j : Nat) : Nat → List Nat × Nat × Nat
  | 0 => (s, i, j)
  | n + 1 =>
    prgaStep (prgaIter s i j n).1 (prgaIter s i j n).2.1 (prgaIter s i j n).2.2

/-! ### SM3 hash engine (part_006 lines 38-255) -/

/-- `leftRotate(x, n)`: 32-bit left rotation, `n` taken mod 32
(JS `((x << n) | (x >>> (32 - n))) & 0xffffffff`; for `n % 32 = 0` the JS
shift count `32` also acts as `0`, and both sides give back `x`). -/
def leftRotate (x n : Nat) : Nat :=
  let m := n % 32
  ((x <<< m) ||| ((x % 4294967296) >>> (32 - m))) % 4294967296

/-- `getTj(j)`: the round constant.  The source throws for `j ≥ 64`; every
call site uses `0 ≤ j < 64`, so the model only splits at 16. -/
def getTj (j : Nat) : Nat :=
  if j < 16 then 2043430169 else 2055708042

/-- `ffJ(j, x, y, z)`: XOR for rounds 0-15, majority for rounds 16-63
(source throws for `j ≥ 64`, which no call site reaches). -/
def ffJ (j x y z : Nat) : Nat :=
  if j < 16 then (x ^^^ y ^^^ z) % 4294967296
  else ((x &&& y) ||| (x &&& z) ||| (y &&& z)) % 4294967296

/-- `ggJ(j, x, y, z)`: XOR for rounds 0-15, choose for rounds 16-63.
JS `~x & z` on a value `x < 2^32` equals `(0xffffffff ^ x) & z`. -/
def ggJ (j x y z : Nat) : Nat :=
  if j < 16 then (x ^^^ y ^^^ z) % 4294967296
  else ((x &&& y) ||| ((4294967295 ^^^ (x % 4294967296)) &&& z)) % 4294967296

/-- The mutable fields of the `SM3` class: eight 32-bit registers, the
buffered partial block, and the running byte count. -/
structure SM3State where
  reg : List Nat
  chunk : List Nat
  size : Nat
deriving DecidableEq, Repr

/-- The eight initialization constants loaded by `SM3.reset`. -/
def sm3IV : List Nat :=
  [1937774191, 1226093241, 388252375, 3666478592,
   2842636476, 372324522, 3817729613, 2969243214]

/-- The state produced by `SM3.reset` (and by the constructor). -/
def initState : SM3State := ⟨sm3IV, [], 0⟩

/-- `SM3.compress(data)`: one compression round over a 64-byte block.
Message expansion builds `w[0..67]` and `w'[j] = w[j] ^ w[j+4]`
(stored at `w[68..131]` in the source), then 64 rounds update the eight
working registers, which are finally XORed into `reg`. -/
def compress (reg data : List Nat) : List Nat :=
  let w0 := (List.range 16).map (fun t =>
    (((data.getD (4 * t) 0) <<< 24) ||| ((data.getD (4 * t + 1) 0) <<< 16) |||
     ((data.getD (4 * t + 2) 0) <<< 8) ||| (data.getD (4 * t + 3) 0)) % 4294967296)
  let w68 := (List.range' 16 52).foldl (fun w j =>
    let a1 := (w.getD (j - 16) 0) ^^^ (w.getD (j - 9) 0) ^^^ leftRotate (w.getD (j - 3) 0) 15
    let a2 := a1 ^^^ leftRotate a1 15 ^^^ leftRotate a1 23
    w ++ [(a2 ^^^ leftRotate (w.getD (j - 13) 0) 7 ^^^ (w.getD (j - 6) 0)) % 4294967296]) w0
  let wp := (List.range 64).map (fun j => ((w68.getD j 0) ^^^ (w68.getD (j + 4) 0)) % 4294967296)
  let final := (List.range 64).foldl (fun (r : List Nat) j =>
    let a := r.getD 0 0
    let b := r.getD 1 0
    let c := r.getD 2 0
    let d := r.getD 3 0
    let e := r.getD 4 0
    let f := r.getD 5 0
    let g := r.getD 6 0
    let h := r.getD 7 0
    let ss1 := leftRotate ((leftRotate a 12 + e + leftRotate (getTj j) j) % 4294967296) 7
    let ss2 := ss1 ^^^ leftRotate a 12
    let tt1 := (ffJ j a b c + d + ss2 + wp.getD j 0) % 4294967296
    let tt2 := (ggJ j e f g + h + ss1 + w68.getD j 0) % 4294967296
    [tt1, a, leftRotate b 9, c,
     (tt2 ^^^ leftRotate tt2 9 ^^^ leftRotate tt2 17) % 4294967296,
     e, leftRotate f 19, g]) reg
  (List.range 8).map (fun k => ((reg.getD k 0) ^^^ (final.getD k 0)) % 4294967296)

/-- The `while (this.chunk.length >= 64)` loop inside `SM3.write`.  Each pass
compresses `chunk.slice(0, 64)`, then reloads `chunk` with the next input
slice `a.slice(f, min(f + 64, a.length))` (or `[]` once `f` has passed the
end) and advances `f` by 64.  The `f ≥ a.length` arm inlines the final
no-op loop test on the empty chunk. -/
def writeLoop (reg chunk a : List Nat) (f : Nat) : List Nat × List Nat :=
  if 64 ≤ chunk.length then
    let reg2 := compress reg (chunk.take 64)
    if f < a.length then
      writeLoop reg2 ((a.drop f).take 64) a (f + 64)
    else
      (reg2, [])
  else
    (reg, chunk)
termination_by a.length - f
decreasing_by simp_wf; omega

/-- `SM3.write(data)` on a byte list (string inputs go through `utf8Encode`
at the call sites, mirroring the `TextEncoder` branch). -/
def sm3Write (st : SM3State) (a : List Nat) : SM3State :=
  let size2 := st.size + a.length
  let f := 64 - st.chunk.length
  if a.length < f then
    ⟨st.reg, st.chunk ++ a, size2⟩
  else
    let r := writeLoop st.reg (st.chunk ++ a.take f) a f
    ⟨r.1, r.2, size2⟩

/-- `SM3.fill()`: append `0x80`, zero-pad to 56 mod 64 (the source tracks a
`paddingPos` that can go negative, hence the `Int`), then the 64-bit
big-endian bit length as two 32-bit halves (high half by float floor
division, low half through `>>>`, i.e. mod 2^32). -/
def sm3Fill (st : SM3State) : SM3State :=
  let bitLength := 8 * st.size
  let p0 : Int := ((st.chunk.length + 1) % 64 : Nat)
  let p1 : Int := if (64 : Int) - p0 < 8 then p0 - 64 else p0
  let zeros : Nat := ((56 : Int) - p1).toNat
  let highBits := bitLength / 4294967296
  let highBytes := (List.range 4).map (fun i => (highBits >>> (8 * (3 - i))) &&& 255)
  let lowBytes := (List.range 4).map (fun i => ((bitLength % 4294967296) >>> (8 * (3 - i))) &&& 255)
  { st with chunk := st.chunk ++ [128] ++ List.replicate zeros 0 ++ highBytes ++ lowBytes }

/-- The `for (let f = 0; f < this.chunk.length; f += 64)` compression loop of
`SM3.sum`, written with an explicit block counter (`fuel`, instantiated with
`chunk.length`, which bounds the number of 64-byte slices) so that the
definition is structurally recursive and kernel-evaluable. -/
def compressChunksGo : Nat → List Nat → List Nat → List Nat
  | _, reg, [] => reg
  | 0, reg, _ :: _ => reg
  | fuel + 1, reg, c :: cs =>
    compressChunksGo fuel (compress reg ((c :: cs).take 64)) ((c :: cs).drop 64)

/-- All 64-byte slices of `chunk` compressed in order into `reg`. -/
def compressChunks (reg chunk : List Nat) : List Nat :=
  compressChunksGo chunk.length reg chunk

/-- The byte-array rendering of the eight registers used by `SM3.sum`'s
default branch: big-endian bytes `(c >>> 24) & 0xff`, …, `c & 0xff`. -/
def regToBytes (reg : List Nat) : List Nat :=
  (reg.map (fun c =>
    [(c >>> 24) &&& 255, (c >>> 16) &&& 255, (c >>> 8) &&& 255, c &&& 255])).flatten

/-- `SM3.sum(data?)` with the default (byte-array) output format: optional
reset-and-write, `fill`, compress all buffered blocks, render the digest,
and — only in this branch — `reset` the instance afterwards.  Returns the
digest together with the instance state after the call. -/
def sumBytes (st : SM3State) (data : Option (List Nat)) : List Nat × SM3State :=
  let st1 := match data with
    | some d => sm3Write initState d
    | none => st
  let st2 := sm3Fill st1
  let reg2 := compressChunks st2.reg st2.chunk
  (regToBytes reg2, initState)

/-- Lowercase hex digit, as produced by JS `toString(16)`. -/
def hexDigitChar (n : Nat) : Char :=
  if n < 10 then Char.ofNat (48 + n) else Char.ofNat (87 + n)

/-- Hex digits of `n` (most significant first, no leading zeros, `"0"` for
zero), with an explicit digit-count fuel so the definition is structurally
recursive; 16 digits cover every value below 2^64, far above the 32-bit
register values this is applied to. -/
def hexAux : Nat → Nat → List Char
  | 0, _ => []
  | fuel + 1, n =>
    if n < 16 then [hexDigitChar n]
    else hexAux fuel (n / 16) ++ [hexDigitChar (n % 16)]

/-- JS `val.toString(16)` for the Nat `v < 2^32` holding the bit pattern of
an int32 register: values with the top bit set are stored negative in JS, so
they render as a minus sign followed by the magnitude `2^32 - v`. -/
def js32Hex (v : Nat) : List Char :=
  if v < 2147483648 then hexAux 16 v
  else Char.ofNat 45 :: hexAux 16 (4294967296 - v)

/-- JS `val.toString(16).padStart(8, '0')`: left-pad the rendered string
(minus sign included) with `'0'` up to length 8. -/
def js32HexPad (v : Nat) : List Char :=
  let s := js32Hex v
  List.replicate (8 - s.length) (Char.ofNat 48) ++ s

/-- `SM3.sum(data?, 'hex')`: same pipeline, but the digest is rendered with
`toString(16).padStart(8, '0')` per register, and the instance state is NOT
reset: the registers, the (padded) buffered chunk and the byte count are
left as the compression loop left them. -/
def sumHex (st : SM3State) (data : Option (List Nat)) : List Char × SM3State :=
  let st1 := match data with
    | some d => sm3Write initState d
    | none => st
  let st2 := sm3Fill st1
  let reg2 := compressChunks st2.reg st2.chunk
  ((reg2.map js32HexPad).flatten, { reg := reg2, chunk := st2.chunk, size := st1.size })

/-- The one-shot byte digest `new SM3().sum(data)` of a byte list. -/
def sm3Sum (data : List Nat) : List Nat :=
  (sumBytes initState (some data)).1

/-! ### UTF-8 conversion (`new TextEncoder().encode`, part_006 line 108) -/

/-- UTF-8 bytes of a single non-paired UTF-16 code unit; a lone surrogate
becomes the replacement character `EF BF BD`, as `TextEncoder` emits. -/
def utf8Simple (c : Nat) : List Nat :=
  if c < 128 then [c]
  else if c < 2048 then [192 + c / 64, 128 + c % 64]
  else if 55296 ≤ c ∧ c < 57344 then [239, 191, 189]
  else [224 + c / 4096, 128 + c / 64 % 64, 128 + c % 64]

/-- UTF-8 bytes of a surrogate pair (high unit `c`, low unit `c2`). -/
def utf8Quad (c c2 : Nat) : List Nat :=
  let cp := 65536 + (c - 55296) * 1024 + (c2 - 56320)
  [240 + cp / 262144, 128 + cp / 4096 % 64, 128 + cp / 64 % 64, 128 + cp % 64]

/-- `TextEncoder().encode` on a list of UTF-16 code units. -/
def utf8Encode : List Nat → List Nat
  | [] => []
  | [c] => utf8Simple c
  | c :: c2 :: cs =>
    if 55296 ≤ c ∧ c < 56320 ∧ 56320 ≤ c2 ∧ c2 < 57344 then
      utf8Quad c c2 ++ utf8Encode cs
    else
      utf8Simple c ++ utf8Encode (c2 :: cs)

/-- `sm3.sum` applied to a JS string: UTF-8 conversion, then the byte sum. -/
def sm3SumStr (s : List Nat) : List Nat :=
  sm3Sum (utf8Encode s)

/-! ### Modified base64 encoder (`resultEncrypt`, part_006 lines 260-313) -/

/-- The five alphabet variants of `encodingTables`. -/
inductive Variant where
  | s0 | s1 | s2 | s3 | s4
deriving DecidableEq, Repr

/-- The selected 65-character (64 for `s3`) alphabet, as char codes. -/
def encodingTable : Variant → List Nat
  | .s0 => "ABCDEFGHIJKLMNOPQRSTUVWXYZabcdefghijklmnopqrstuvwxyz0123456789+/=".toList.map Char.toNat
  | .s1 => "Dkdpgh4ZKsQB80/Mfvw36XI1R25+WUAlEi7NLboqYTOPuzmFjJnryx9HVGcaStCe=".toList.map Char.toNat
  | .s2 => "Dkdpgh4ZKsQB80/Mfvw36XI1R25-WUAlEi7NLboqYTOPuzmFjJnryx9HVGcaStCe=".toList.map Char.toNat
  | .s3 => "ckdp1h4ZKsUB80/Mfvw36XIgR25+WQAlEi7NLboqYTOPuzmFjJnryx9HVGDaStCe".toList.map Char.toNat
  | .s4 => "Dkdpgh2ZmsQB80/MfvV36XI1R45-WUAlEixNLwoqYTOPuzKFjJnry79HbGcaStCe".toList.map Char.toNat

/-- `getLongInt(roundNum, longStr)`: the 24-bit big-endian composite of the
three chars at `3 * roundNum`, out-of-range chars read as 0. -/
def getLongInt (roundNum : Nat) (longStr : List Nat) : Nat :=
  let r := roundNum * 3
  ((longStr.getD r 0) <<< 16) ||| ((longStr.getD (r + 1) 0) <<< 8) ||| (longStr.getD (r + 2) 0)

/-- The `masks` array `[16515072, 258048, 4032, 63]`. -/
def reMasks : List Nat := [16515072, 258048, 4032, 63]

/-- The `shifts` array `[18, 12, 6, 0]`. -/
def reShifts : List Nat := [18, 12, 6, 0]

/-- `resultEncrypt(longStr, num)`.  The loop bound is
`Math.ceil((longStr.length / 3) * 4)`; for `len < 2^51` the float division
`len / 3` is either exact (`3 ∣ len`) or off by far less than 1/3, so this
equals `⌈4·len/3⌉ = (4·len + 2) / 3` exactly.  The stateful `roundNum`
bookkeeping of the loop reduces to `roundNum = i / 4` at index `i`, since
`roundNum` is bumped exactly when `Math.floor(i / 4)` moves past it. -/
def resultEncrypt (longStr : List Nat) (num : Variant) : List Nat :=
  let table := encodingTable num
  let totalChars := (4 * longStr.length + 2) / 3
  (List.range totalChars).map (fun i =>
    let longInt := getLongInt (i / 4) longStr
    let index := i % 4
    table.getD ((longInt &&& reMasks.getD index 0) >>> reShifts.getD index 0) 0)

/-! ### Fixed "random" prefix (part_006 lines 318-344) -/

/-- `generRandom(randomNum, option)`: interleave the even/odd bits of the two
low bytes of `randomNum` with the option bytes. -/
def generRandom (randomNum : Nat) (option : List Nat) : List Nat :=
  let byte1 := randomNum &&& 255
  let byte2 := (randomNum >>> 8) &&& 255
  [(byte1 &&& 170) ||| ((option.getD 0 0) &&& 85),
   (byte1 &&& 85) ||| ((option.getD 0 0) &&& 170),
   (byte2 &&& 170) ||| ((option.getD 1 0) &&& 85),
   (byte2 &&& 85) ||| ((option.getD 1 0) &&& 170)]

/-- `generateRandomStr()`: the source uses the fixed literals
`0.123456789`, `0.987654321`, `0.555555555`; `Math.floor(v * 10000)` on
those floats gives exactly 1234, 9876 and 5555 (the products are far from
integer boundaries), so the "random" prefix is a 12-byte constant. -/
def generateRandomStr : List Nat :=
  generRandom 1234 [3, 45] ++ generRandom 9876 [1, 0] ++ generRandom 5555 [1, 5]

/-! ### Byte-protocol builder (`generateRc4BbStr`, part_006 lines 349-591) -/

/-- `splitToBytes(num)`: four big-endian bytes of `num`; JS `>>>` converts
through ToUint32 first, i.e. the value is taken mod 2^32. -/
def splitToBytes (num : Nat) : List Nat :=
  let m := num % 4294967296
  [(m >>> 24) &&& 255, (m >>> 16) &&& 255, (m >>> 8) &&& 255, m &&& 255]

/-- The `bb` byte list assembled by `generateRc4BbStr` before the final RC4
encryption: the `b[...]` field map (keyed here by the same numbers as the
source), laid out in the source's interleaved push order, then the
environment char codes, then the checksum byte `b[72]`.
`ulist`, `cus`, `ua` are the three digests, `env` the environment string's
char codes, `args` the 3-integer configuration tuple, `startTime` the
`Date.now()` value (`endTime = startTime + 100`). -/
def bbList (ulist cus ua env args : List Nat) (startTime : Nat) : List Nat :=
  let endTime := startTime + 100
  let b8 := 3
  let b18 := 44
  let stB := splitToBytes startTime
  let b20 := stB.getD 0 0
  let b21 := stB.getD 1 0
  let b22 := stB.getD 2 0
  let b23 := stB.getD 3 0
  let b24 := (startTime / 4294967296) &&& 255
  let b25 := (startTime / 1099511627776) &&& 255
  let a0B := splitToBytes (args.getD 0 0)
  let b26 := a0B.getD 0 0
  let b27 := a0B.getD 1 0
  let b28 := a0B.getD 2 0
  let b29 := a0B.getD 3 0
  let b30 := ((args.getD 1 0) / 256) &&& 255
  let b31 := (args.getD 1 0) % 256
  let a1B := splitToBytes (args.getD 1 0)
  let b32 := a1B.getD 0 0
  let b33 := a1B.getD 1 0
  let a2B := splitToBytes (args.getD 2 0)
  let b34 := a2B.getD 0 0
  let b35 := a2B.getD 1 0
  let b36 := a2B.getD 2 0
  let b37 := a2B.getD 3 0
  let b38 := ulist.getD 21 0
  let b39 := ulist.getD 22 0
  let b40 := cus.getD 21 0
  let b41 := cus.getD 22 0
  let b42 := ua.getD 23 0
  let b43 := ua.getD 24 0
  let etB := splitToBytes endTime
  let b44 := etB.getD 0 0
  let b45 := etB.getD 1 0
  let b46 := etB.getD 2 0
  let b47 := etB.getD 3 0
  let b48 := b8
  let b49 := (endTime / 4294967296) &&& 255
  let b50 := (endTime / 1099511627776) &&& 255
  let pB := splitToBytes 110624
  let b52 := pB.getD 0 0
  let b53 := pB.getD 1 0
  let b54 := pB.getD 2 0
  let b55 := pB.getD 3 0
  let b57 := 6383 &&& 255
  let b58 := (6383 >>> 8) &&& 255
  let b59 := (6383 >>> 16) &&& 255
  let b60 := (6383 >>> 24) &&& 255
  let b64 := env.length
  let b65 := b64 &&& 255
  let b66 := (b64 >>> 8) &&& 255
  let b70 := 0
  let b71 := 0
  let b72 := b18 ^^^ b20 ^^^ b26 ^^^ b30 ^^^ b38 ^^^ b40 ^^^ b42 ^^^ b21 ^^^ b27 ^^^
    b31 ^^^ b35 ^^^ b39 ^^^ b41 ^^^ b43 ^^^ b22 ^^^ b28 ^^^ b32 ^^^ b36 ^^^ b23 ^^^
    b29 ^^^ b33 ^^^ b37 ^^^ b44 ^^^ b45 ^^^ b46 ^^^ b47 ^^^ b48 ^^^ b49 ^^^ b50 ^^^
    b24 ^^^ b25 ^^^ b52 ^^^ b53 ^^^ b54 ^^^ b55 ^^^ b57 ^^^ b58 ^^^ b59 ^^^ b60 ^^^
    b65 ^^^ b66 ^^^ b70 ^^^ b71
  ([b18, b20, b52, b26, b30, b34, b58, b38, b40, b53, b42, b21, b27, b54, b55, b31,
    b35, b57, b39, b41, b43, b22, b28, b32, b60, b36, b23, b29, b33, b37, b44, b45,
    b59, b46, b47, b48, b49, b50, b24, b25, b65, b66, b70, b71] ++ env) ++ [b72]

/-- The checksum byte `b[72]` (part_006 lines 495-538) on its own: the XOR of
exactly the enumerated field bytes, in the source's order. -/
def checksumByte (ulist cus ua env args : List Nat) (startTime : Nat) : Nat :=
  let endTime := startTime + 100
  let stB := splitToBytes startTime
  let a0B := splitToBytes (args.getD 0 0)
  let a1B := splitToBytes (args.getD 1 0)
  let a2B := splitToBytes (args.getD 2 0)
  let etB := splitToBytes endTime
  let pB := splitToBytes 110624
  44 ^^^ stB.getD 0 0 ^^^ a0B.getD 0 0 ^^^ (((args.getD 1 0) / 256) &&& 255) ^^^
    ulist.getD 21 0 ^^^ cus.getD 21 0 ^^^ ua.getD 23 0 ^^^ stB.getD 1 0 ^^^
    a0B.getD 1 0 ^^^ ((args.getD 1 0) % 256) ^^^ a2B.getD 1 0 ^^^ ulist.getD 22 0 ^^^
    cus.getD 22 0 ^^^ ua.getD 24 0 ^^^ stB.getD 2 0 ^^^ a0B.getD 2 0 ^^^
    a1B.getD 0 0 ^^^ a2B.getD 2 0 ^^^ stB.getD 3 0 ^^^ a0B.getD 3 0 ^^^
    a1B.getD 1 0 ^^^ a2B.getD 3 0 ^^^ etB.getD 0 0 ^^^ etB.getD 1 0 ^^^
    etB.getD 2 0 ^^^ etB.getD 3 0 ^^^ 3 ^^^ ((endTime / 4294967296) &&& 255) ^^^
    ((endTime / 1099511627776) &&& 255) ^^^ ((startTime / 4294967296) &&& 255) ^^^
    ((startTime / 1099511627776) &&& 255) ^^^ pB.getD 0 0 ^^^ pB.getD 1 0 ^^^
    pB.getD 2 0 ^^^ pB.getD 3 0 ^^^ (6383 &&& 255) ^^^ ((6383 >>> 8) &&& 255) ^^^
    ((6383 >>> 16) &&& 255) ^^^ ((6383 >>> 24) &&& 255) ^^^ (env.length &&& 255) ^^^
    ((env.length >>> 8) &&& 255) ^^^ 0 ^^^ 0

/-- `generateRc4BbStr(urlSearchParams, userAgent, windowEnvStr, suffix, args)`
with the timestamp `Date.now()` made an explicit input: compute the three
digests, build `bb`, and RC4-encrypt it under the single-byte key
`String.fromCharCode(121)`. -/
def generateRc4BbStr (urlSearchParams userAgent windowEnvStr suffix args : List Nat)
    (startTime : Nat) : List Nat :=
  let urlSearchParamsList := sm3Sum (sm3SumStr (urlSearchParams ++ suffix))
  let cus := sm3Sum (sm3SumStr suffix)
  let uaKey : List Nat := [0, 1, 14]
  let ua := sm3SumStr (resultEncrypt (rc4Encrypt userAgent uaKey) Variant.s3)
  rc4Encrypt (bbList urlSearchParamsList cus ua windowEnvStr args startTime) [121]

/-! ### Orchestrator (`abSign`, part_006 lines 599-611) -/

/-- The fixed environment-fingerprint literal `windowEnvStr`, as char codes. -/
def envBytes : List Nat :=
  "1920|1080|1920|1040|0|30|0|0|1872|92|1920|1040|1857|92|1|24|Win32".toList.map Char.toNat

/-- The default suffix literal `'cus'`, as char codes. -/
def cusBytes : List Nat := "cus".toList.map Char.toNat

/-- The pre-encryption `bb` ByteStructure underlying `abSign q ua` at
timestamp `t` (the list the source builds just before the final
`rc4Encrypt(..., String.fromCharCode(121))`). -/
def byteStructure (q ua : List Nat) (t : Nat) : List Nat :=
  bbList (sm3Sum (sm3SumStr (q ++ cusBytes))) (sm3Sum (sm3SumStr cusBytes))
    (sm3SumStr (resultEncrypt (rc4Encrypt ua [0, 1, 14]) Variant.s3))
    envBytes [0, 1, 14] t

/-- `abSign(urlSearchParams, userAgent)` with the timestamp as an input:
encode the prefixed cipher-text with alphabet `s4` and append `'='` (61). -/
def abSign (urlSearchParams userAgent : List Nat) (startTime : Nat) : List Nat :=
  resultEncrypt
    (generateRandomStr ++ generateRc4BbStr urlSearchParams userAgent envBytes cusBytes [0, 1, 14] startTime)
    Variant.s4 ++ [61]

/-! ### Specification-side helper: canonical block absorption

`absorb reg buf` compresses the 64-byte blocks of `buf` into `reg` and
returns the remaining partial block.  It is the clean mathematical shape
of `SM3.write`'s buffering, used to prove the chunking-invariance claim. -/

/-- Compress all full 64-byte blocks of `buf` into `reg`, returning the new
registers and the trailing partial block of length below 64. -/
def absorb (reg buf : List Nat) : List Nat × List Nat :=
  if _h : buf.length < 64 then (reg, buf)
  else absorb (compress reg (buf.take 64)) (buf.drop 64)
termination_by buf.length
decreasing_by simp_wf; omega

/-! ### Helper lemmas -/

/-- The keystream is plaintext-independent, so applying `prga` twice from
the same state XORs every position with the same byte twice. -/
theorem prga_involution (cs : List Nat) : ∀ s i j, prga s i j (prga s i j cs) = cs := by
  induction cs with
  | nil => intro s i j; rfl
  | cons c cs ih =>
    intro s i j
    simp only [prga, ih]
    rw [← Nat.xor_assoc, Nat.xor_self, Nat.zero_xor]

/-- `compress` always returns an 8-word register list. -/
theorem compress_length (reg data : List Nat) : (compress reg data).length = 8 := by
  simp [compress]

/-- `compressChunksGo` keeps an 8-word register list at 8 words. -/
theorem compressChunksGo_length :
    ∀ (fuel : Nat) (reg chunk : List Nat), reg.length = 8 →
      (compressChunksGo fuel reg chunk).length = 8 := by
  intro fuel
  induction fuel with
  | zero => intro reg chunk h; cases chunk <;> simpa [compressChunksGo]
  | succ n ih =>
    intro reg chunk h
    cases chunk with
    | nil => simpa [compressChunksGo]
    | cons c cs => simpa [compressChunksGo] using ih _ _ (compress_length _ _)

/-- On a nonempty chunk, the compression loop output has 8 words whatever
register list it starts from. -/
theorem compressChunks_length (reg chunk : List Nat) (h : chunk ≠ []) :
    (compressChunks reg chunk).length = 8 := by
  cases chunk with
  | nil => exact absurd rfl h
  | cons c cs =>
    simpa [compressChunks, compressChunksGo] using
      compressChunksGo_length _ _ _ (compress_length _ _)

/-- The chunk produced by `sm3Fill` is never empty (it contains `0x80`). -/
theorem sm3Fill_chunk_ne_nil (st : SM3State) : (sm3Fill st).chunk ≠ [] := by
  simp [sm3Fill]

/-- Length of the byte rendering of a register list. -/
theorem regToBytes_length (reg : List Nat) : (regToBytes reg).length = 4 * reg.length := by
  induction reg with
  | nil => rfl
  | cons c cs ih => simp [regToBytes] at ih ⊢; omega

/-- Every byte rendered by `regToBytes` is below 256. -/
theorem regToBytes_lt (reg : List Nat) :
    (regToBytes reg).all (fun x => decide (x < 256)) = true := by
  rw [List.all_eq_true]
  intro x hx
  simp only [regToBytes, List.mem_flatten] at hx
  obtain ⟨l, hl, hxl⟩ := hx
  rw [List.mem_map] at hl
  obtain ⟨c, -, rfl⟩ := hl
  simp only [List.mem_cons, List.not_mem_nil, or_false] at hxl
  rcases hxl with rfl | rfl | rfl | rfl <;>
    exact decide_eq_true (Nat.lt_succ_of_le Nat.and_le_right)

/-! ### Claim theorems -/

/-- Claim C1: for every query string, user agent and timestamp, the token
returned by `abSign` is exactly
`resultEncrypt(P ++ rc4Encrypt(bb, chr(121)), s4) ++ "="`, where `bb` is the
ByteStructure built by `generateRc4BbStr` and `P = generateRandomStr` is the
fixed 12-byte prefix block `[131, 82, 5, 44, 129, 20, 34, 4, 163, 17, 5, 21]`
(deterministic, built from the fixed literal probability constants). -/
theorem c1_absign_structure :
    (∀ (q ua : List Nat) (t : Nat),
      abSign q ua t =
        resultEncrypt (generateRandomStr ++ rc4Encrypt (byteStructure q ua t) [121])
          Variant.s4 ++ [61]) ∧
    generateRandomStr = [131, 82, 5, 44, 129, 20, 34, 4, 163, 17, 5, 21] :=
  ⟨fun _ _ _ => rfl, by decide⟩

/-- Claim C2: in every call, the three digests fed to the byte-protocol
builder are `digest1 = SM3(SM3(queryString ++ "cus"))`,
`digest2 = SM3(SM3("cus"))` (query-independent), and
`digest3 = SM3(resultEncrypt(rc4Encrypt(userAgent, k), s3))` with `k` the
3-character key of char codes 0, 1, 14. -/
theorem c2_digest_pipeline :
    ∀ (q ua env args : List Nat) (t : Nat),
      generateRc4BbStr q ua env cusBytes args t =
        rc4Encrypt
          (bbList (sm3Sum (sm3Sum (utf8Encode (q ++ cusBytes))))
            (sm3Sum (sm3Sum (utf8Encode cusBytes)))
            (sm3Sum (utf8Encode (resultEncrypt (rc4Encrypt ua [0, 1, 14]) Variant.s3)))
            env args t)
          [121] :=
  fun _ _ _ _ _ => rfl

set_option maxRecDepth 8192 in
/-- Claim C3: the hash engine reproduces the reference digests of the SM3
standard: `sum("")` is `1ab21d8355cfa17f8e61194831e81a8f22bec8c728fefb74`
`7ed035eb5082aa2b` and `sum("abc")` is the published GB/T 32905 vector
`66c7f0f462eeedd9d1f2d46bdc10e4e24167c4875cf2f7a2297da02b8f4ba8e0`. -/
theorem c3_sm3_known_answers :
    sm3Sum [] =
      [26, 178, 29, 131, 85, 207, 161, 127, 142, 97, 25, 72, 49, 232, 26, 143,
       34, 190, 200, 199, 40, 254, 251, 116, 126, 208, 53, 235, 80, 130, 170, 43] ∧
    sm3Sum [97, 98, 99] =
      [102, 199, 240, 244, 98, 238, 237, 217, 209, 242, 212, 107, 220, 16, 228, 226,
       65, 103, 196, 135, 92, 242, 247, 162, 41, 125, 160, 43, 143, 75, 168, 224] := by
  constructor <;> decide

/-- Claim C4 counterexample: the claim asserts `|encode(n bytes)| = ⌈n/3⌉·4`,
which for the 1-byte input `[65]` would be 4; the encoder actually emits
`Math.ceil((1/3)·4) = 2` characters. -/
theorem c4_length_counterexample : (resultEncrypt [65] Variant.s0).length ≠ 4 := by
  decide

/-- Claim C4 (amended): for every alphabet variant and every input, the
encoder output has length `⌈4·n/3⌉ = (4·n + 2) / 3` — which coincides with
the claimed `⌈n/3⌉·4` only when `n ≡ 0 (mod 3)`. -/
theorem c4_length_law :
    ∀ (v : Variant) (input : List Nat),
      (resultEncrypt input v).length = (4 * input.length + 2) / 3 := by
  intro v input
  simp [resultEncrypt]

/-- Claim C6: the stream cipher is an involution — re-encrypting the
ciphertext with the same key from a freshly initialized cipher state returns
the original plaintext, for any key/plaintext pair. -/
theorem c6_rc4_involution :
    ∀ (plaintext key : List Nat), rc4Encrypt (rc4Encrypt plaintext key) key = plaintext :=
  fun plaintext key => prga_involution plaintext (rc4Ksa key) 0 0

set_option maxRecDepth 8192 in
/-- Claim C8: the byte-output digest is always exactly 32 bytes, each below
256; but the hex output is NOT always 64 characters — the registers are
stored as JS signed int32 values and `toString(16)` renders the negative
ones with a minus sign, so already for the empty input the hex rendering has
65 characters and contains `'-'` (code 45). -/
theorem c8_digest_shape :
    (∀ data : List Nat,
      (sm3Sum data).length = 32 ∧
      (sm3Sum data).all (fun x => decide (x < 256)) = true) ∧
    (sumHex initState (some [])).1.length = 65 ∧
    Char.ofNat 45 ∈ (sumHex initState (some [])).1 := by
  refine ⟨fun data => ⟨?_, ?_⟩, by decide, by decide⟩
  · show (regToBytes _).length = 32
    rw [regToBytes_length, compressChunks_length _ _ (sm3Fill_chunk_ne_nil _)]
  · exact regToBytes_lt _

set_option maxRecDepth 8192 in
/-- Claim C9: `sum` with byte output resets the engine to the freshly-reset
initial state; `sum` with hex output does not (for input `"abc"` the
post-call state differs from `initState`), and a subsequent no-argument
hex-format `sum()` on that un-reset instance returns neither the fresh hex
digest of `"abc"` nor the fresh hex digest of the empty input. -/
theorem c9_reset_asymmetry :
    (∀ (st : SM3State) (data : Option (List Nat)), (sumBytes st data).2 = initState) ∧
    (sumHex initState (some [97, 98, 99])).2 ≠ initState ∧
    (sumHex (sumHex initState (some [97, 98, 99])).2 none).1 ≠
      (sumHex initState (some [97, 98, 99])).1 ∧
    (sumHex (sumHex initState (some [97, 98, 99])).2 none).1 ≠
      (sumHex initState (some [])).1 := by
  refine ⟨fun st data => ?_, by decide, by decide, by decide⟩
  cases data <;> rfl

set_option maxRecDepth 8192 in
/-- Claim C7: the trailing checksum byte of the ByteStructure is the XOR of
exactly the fixed enumerated field list (in the source's order, `b[18]`,
`b[20]`, `b[26]`, …, `b[71]`), and not of all serialized bytes: at the input
`args = [0, 1, 2^24]` with environment byte list `[7]`, field `b[34]` (the
high byte of the third configuration integer) appears in the serialization
(position 5, value 1) yet the XOR of all serialized bytes before the
checksum differs from the checksum. -/
theorem c7_checksum_enumeration :
    (∀ (ulist cus ua env args : List Nat) (t : Nat),
      (bbList ulist cus ua env args t).getLast? =
        some (checksumByte ulist cus ua env args t)) ∧
    (bbList [] [] [] [7] [0, 1, 16777216] 0).getD 5 0 = 1 ∧
    (bbList [] [] [] [7] [0, 1, 16777216] 0).dropLast.foldl (fun acc x => acc ^^^ x) 0 ≠
      checksumByte [] [] [] [7] [0, 1, 16777216] 0 := by
  refine ⟨fun ulist cus ua env args t => ?_, by decide, by decide⟩
  simp only [bbList, checksumByte, List.getLast?_concat]

/-! ### Chunking invariance machinery (claim C5) -/

/-- `absorb` on a short buffer is the identity. -/
theorem absorb_of_lt (reg buf : List Nat) (h : buf.length < 64) :
    absorb reg buf = (reg, buf) := by
  unfold absorb
  simp [h]

/-- `absorb` on a long buffer compresses the first block. -/
theorem absorb_of_ge (reg buf : List Nat) (h : 64 ≤ buf.length) :
    absorb reg buf = absorb (compress reg (buf.take 64)) (buf.drop 64) := by
  conv_lhs => rw [absorb.eq_def]
  simp [Nat.not_lt.mpr h]

/-- The partial block left by `absorb` is always shorter than 64 bytes. -/
theorem absorb_snd_lt (reg buf : List Nat) : (absorb reg buf).2.length < 64 := by
  induction reg, buf using absorb.induct with
  | case1 reg buf h => rw [absorb_of_lt _ _ h]; exact h
  | case2 reg buf h ih => rw [absorb_of_ge _ _ (Nat.not_lt.mp h)]; exact ih

/-- Absorbing `x` and then `b` appended to the leftover partial block is the
same as absorbing `x ++ b` at once. -/
theorem absorb_append (reg x : List Nat) (b : List Nat) :
    absorb (absorb reg x).1 ((absorb reg x).2 ++ b) = absorb reg (x ++ b) := by
  induction reg, x using absorb.induct with
  | case1 reg x h =>
    rw [absorb_of_lt _ _ h]
  | case2 reg x h ih =>
    have h64 : 64 ≤ x.length := Nat.not_lt.mp h
    rw [absorb_of_ge _ _ h64, ih,
      absorb_of_ge _ (x ++ b) (by rw [List.length_append]; omega),
      List.take_append_of_le_length h64, List.drop_append_of_le_length h64]

/-- The `write` while-loop is `absorb` on the current chunk followed by the
unread input: the loop invariant is that either the chunk is exactly one
block, or it is short and the input is exhausted. -/
theorem writeLoop_eq_absorb (reg chunk a : List Nat) (f : Nat)
    (h : chunk.length = 64 ∨ (chunk.length < 64 ∧ a.length ≤ f)) :
    writeLoop reg chunk a f = absorb reg (chunk ++ a.drop f) := by
  induction reg, chunk, a, f using writeLoop.induct with
  | case1 reg chunk a f h64 reg2 hf ih =>
    rcases h with h64' | ⟨hlt, _⟩
    · have hlen : ((a.drop f).take 64).length = min 64 (a.length - f) := by
        rw [List.length_take, List.length_drop]
      have harg : ((a.drop f).take 64).length = 64 ∨
          (((a.drop f).take 64).length < 64 ∧ a.length ≤ f + 64) := by omega
      have hdropc : chunk.drop 64 = [] := List.drop_eq_nil_of_le (by omega)
      rw [writeLoop]
      simp only [if_pos h64, if_pos hf]
      rw [absorb_of_ge reg (chunk ++ a.drop f) (by rw [List.length_append]; omega),
        List.take_append_of_le_length h64, List.drop_append_of_le_length h64,
        hdropc, List.nil_append, ih harg, List.drop_take_append_drop]
    · omega
  | case2 reg chunk a f h64 hf =>
    rcases h with h64' | ⟨hlt, _⟩
    · have hdropc : chunk.drop 64 = [] := List.drop_eq_nil_of_le (by omega)
      have hdropa : a.drop f = [] := List.drop_eq_nil_of_le (by omega)
      rw [writeLoop]
      simp only [if_pos h64, if_neg hf]
      rw [hdropa, List.append_nil, absorb_of_ge reg chunk (by omega), hdropc,
        absorb_of_lt _ _ (by simp)]
    · omega
  | case3 reg chunk a f h64 =>
    rcases h with h64' | ⟨hlt, hle⟩
    · omega
    · rw [writeLoop]
      simp only [if_neg h64]
      rw [List.drop_eq_nil_of_le hle, List.append_nil, absorb_of_lt _ _ hlt]

/-- On a state whose buffered chunk is shorter than one block (the invariant
`SM3.write` maintains), `write` is exactly `absorb` of the chunk followed by
the new input, with the byte count advanced. -/
theorem sm3Write_eq_absorb (st : SM3State) (a : List Nat) (h : st.chunk.length < 64) :
    sm3Write st a =
      ⟨(absorb st.reg (st.chunk ++ a)).1, (absorb st.reg (st.chunk ++ a)).2,
        st.size + a.length⟩ := by
  rw [sm3Write]
  by_cases hlt : a.length < 64 - st.chunk.length
  · simp only [if_pos hlt]
    rw [absorb_of_lt _ _ (by rw [List.length_append]; omega)]
  · simp only [if_neg hlt]
    have hf : (st.chunk ++ a.take (64 - st.chunk.length)).length = 64 := by
      rw [List.length_append, List.length_take]
      omega
    rw [writeLoop_eq_absorb _ _ _ _ (Or.inl hf), List.append_assoc,
      List.take_append_drop]

/-- `write` preserves the short-chunk invariant. -/
theorem sm3Write_chunk_lt (st : SM3State) (a : List Nat) (h : st.chunk.length < 64) :
    (sm3Write st a).chunk.length < 64 := by
  rw [sm3Write_eq_absorb st a h]
  exact absorb_snd_lt _ _

/-- Two consecutive `write` calls are one `write` of the concatenation. -/
theorem sm3Write_write (st : SM3State) (a b : List Nat) (h : st.chunk.length < 64) :
    sm3Write (sm3Write st a) b = sm3Write st (a ++ b) := by
  rw [sm3Write_eq_absorb st a h,
    sm3Write_eq_absorb _ b (by simpa using absorb_snd_lt st.reg (st.chunk ++ a)),
    sm3Write_eq_absorb st (a ++ b) h]
  simp only [absorb_append, List.append_assoc, List.length_append, SM3State.mk.injEq]
  exact ⟨trivial, trivial, by omega⟩

/-- Writing a list of pieces in order equals writing their concatenation. -/
theorem sm3Write_foldl (pieces : List (List Nat)) :
    ∀ st : SM3State, st.chunk.length < 64 →
      List.foldl sm3Write st pieces = sm3Write st pieces.flatten := by
  induction pieces with
  | nil =>
    intro st h
    show st = sm3Write st []
    rw [sm3Write]
    simp only [List.length_nil, if_pos (by omega : (0:Nat) < 64 - st.chunk.length)]
    simp
  | cons p ps ih =>
    intro st h
    rw [List.foldl_cons, ih _ (sm3Write_chunk_lt st p h), List.flatten_cons,
      sm3Write_write st p ps.flatten h]

/-- Claim C5: for every byte sequence and every split of it into consecutive
pieces, writing each piece in order and then taking `sum()` yields the same
digest as one `write` of the whole sequence followed by `sum()`, starting
from a freshly reset engine (a list `pieces` ranges exactly over the
splittings of its concatenation `pieces.flatten`). -/
theorem c5_chunking_invariance :
    ∀ pieces : List (List Nat),
      (sumBytes (List.foldl sm3Write initState pieces) none).1 =
        (sumBytes (sm3Write initState pieces.flatten) none).1 := by
  intro pieces
  rw [sm3Write_foldl pieces initState (by simp [initState])]

/-! ### Permutation invariant machinery (claim C10) -/

/-- Counting after `set`: setting position `k` to `v` removes one occurrence
of the old entry and adds one occurrence of `v`. -/
theorem count_set_add (x v : Nat) :
    ∀ (l : List Nat) (k : Nat), k < l.length →
      (l.set k v).count x + (if l.getD k 0 = x then 1 else 0) =
        l.count x + (if v = x then 1 else 0) := by
  intro l
  induction l with
  | nil => intro k hk; simp at hk
  | cons hd tl ih =>
    intro k hk
    cases k with
    | zero =>
      simp only [List.set_cons_zero, List.getD_cons_zero, List.count_cons, beq_iff_eq]
      by_cases hv : v = x <;> by_cases hh : hd = x <;> simp [hv, hh]
    | succ k =>
      simp only [List.set_cons_succ, List.getD_cons_succ, List.count_cons, beq_iff_eq]
      have := ih k (by simpa using hk)
      omega

/-- The JS destructuring swap `[s[i], s[j]] = [s[j], s[i]]` (modelled as two
`set`s reading from the original list) does not change any count. -/
theorem swap_count (s : List Nat) (i j : Nat) (hi : i < s.length) (hj : j < s.length)
    (x : Nat) :
    ((s.set i (s.getD j 0)).set j (s.getD i 0)).count x = s.count x := by
  have hgd : (s.set i (s.getD j 0)).getD j 0 = s.getD j 0 := by
    by_cases hij : i = j
    · subst hij
      rw [List.getD_eq_getElem?_getD, List.getElem?_set_self hi, Option.getD_some]
    · rw [List.getD_eq_getElem?_getD, List.getElem?_set_ne hij, ← List.getD_eq_getElem?_getD]
  have h1 := count_set_add x (s.getD i 0) (s.set i (s.getD j 0)) j (by simpa using hj)
  rw [hgd] at h1
  have h2 := count_set_add x (s.getD j 0) s i hi
  omega

/-- The swap is a permutation of the original table. -/
theorem swap_perm (s : List Nat) (i j : Nat) (hi : i < s.length) (hj : j < s.length) :
    ((s.set i (s.getD j 0)).set j (s.getD i 0)).Perm s :=
  List.perm_iff_count.mpr (fun x => swap_count s i j hi hj x)

/-- Folding key-scheduling steps over in-range indices keeps the table a
permutation of `0..255`. -/
theorem ksa_foldl_perm (key : List Nat) :
    ∀ (l : List Nat) (s : List Nat) (j : Nat), (∀ i ∈ l, i < 256) →
      s.Perm (List.range 256) →
      ((l.foldl (ksaStep key) (s, j)).1).Perm (List.range 256) := by
  intro l
  induction l with
  | nil => intro s j _ hs; simpa using hs
  | cons i0 l ih =>
    intro s j hl hs
    rw [List.foldl_cons]
    have hlen : s.length = 256 := by rw [hs.length_eq, List.length_range]
    have hi : i0 < s.length := by rw [hlen]; exact hl i0 (List.mem_cons_self _ _)
    have hj2 : (j + s.getD i0 0 + key.getD (i0 % key.length) 0) % 256 < s.length := by
      rw [hlen]; exact Nat.mod_lt _ (by omega)
    exact ih _ _ (fun i hi2 => hl i (List.mem_cons_of_mem _ hi2))
      ((swap_perm s i0 _ hi hj2).trans hs)

/-- After the full 256-step key schedule the table is a permutation. -/
theorem rc4Ksa_perm (key : List Nat) : (rc4Ksa key).Perm (List.range 256) :=
  ksa_foldl_perm key (List.range 256) (List.range 256) 0
    (fun _ h => List.mem_range.mp h) (List.Perm.refl _)

/-- One keystream step preserves the permutation property. -/
theorem prgaStep_perm (s : List Nat) (i j : Nat) (hs : s.Perm (List.range 256)) :
    ((prgaStep s i j).1).Perm (List.range 256) := by
  have hlen : s.length = 256 := by rw [hs.length_eq, List.length_range]
  have hi : (i + 1) % 256 < s.length := by rw [hlen]; exact Nat.mod_lt _ (by omega)
  have hj : (j + s.getD ((i + 1) % 256) 0) % 256 < s.length := by
    rw [hlen]; exact Nat.mod_lt _ (by omega)
  exact (swap_perm s _ _ hi hj).trans hs

/-- Iterating keystream steps preserves the permutation property. -/
theorem prgaIter_perm (s : List Nat) (i j : Nat) (hs : s.Perm (List.range 256)) :
    ∀ n : Nat, ((prgaIter s i j n).1).Perm (List.range 256) := by
  intro n
  induction n with
  | zero => exact hs
  | succ n ih =>
    exact prgaStep_perm (prgaIter s i j n).1 (prgaIter s i j n).2.1
      (prgaIter s i j n).2.2 ih

/-- Claim C10: for every non-empty key, the cipher table is a full
permutation of `0..255` after key scheduling (`n = 0`) and after every
per-byte keystream step (`n` steps of `prgaStep`, each one swap). -/
theorem c10_table_permutation :
    ∀ key : List Nat, key ≠ [] →
      ∀ n : Nat, ((prgaIter (rc4Ksa key) 0 0 n).1).Perm (List.range 256) :=
  fun key _ n => prgaIter_perm (rc4Ksa key) 0 0 (rc4Ksa_perm key) n

set_option maxRecDepth 8192 in
/-- Witness for C10 at the concrete key `[107]`, after 0 and 3 steps. -/
theorem c10_table_permutation_witness :
    ([107] : List Nat) ≠ [] ∧
    ((prgaIter (rc4Ksa [107]) 0 0 0).1).Perm (List.range 256) ∧
    ((prgaIter (rc4Ksa [107]) 0 0 3).1).Perm (List.range 256) :=
  ⟨by decide, c10_table_permutation [107] (by decide) 0,
    c10_table_permutation [107] (by decide) 3⟩
